import Mathlib

/-!
Shallow embedding of `src/main.py` of the pet-product search engine:
the crawler (`crawl_site`), the scraper (`scrape_with_retry`) together with
its price cleaning and pet-type detection, the SQLite-backed store
(`INSERT OR IGNORE INTO products`), and the TF-IDF search layer
(`vectorize_products`, `search_products`).

Modelling conventions:
* Python floats carrying prices are modelled as `ℚ` (all amounts in play are
  decimal literals, so no rounding is involved).
* Network fetches are oracles passed as explicit function arguments; one
  fetch consumes one index of the oracle.
* `hashlib.sha256(url).hexdigest()` is an explicit function argument
  `hashFn`; only its functionality (same url, same id) matters here.
* TF-IDF weights and cosine similarities involve real logarithms, so the
  similarity row computed for a query is abstracted as an oracle
  `simRow : String → List ℚ`; the ranking claims are proved for every row.
* `numpy.argsort` (default kind quicksort/introsort) is embedded as an
  insertion sort on indices.  This is exact below numpy's small-sort cutoff
  (where introsort degenerates to insertion sort) but over-specifies the
  tie order of larger arrays, where introsort is unstable.  Accordingly,
  the general search theorems use only tie-insensitive consequences of the
  embedding — the output is a permutation of the indices, ascending by
  score — which hold for numpy's argsort of any sort kind; tie-order facts
  are stated only on a concrete two-element run, where insertion sort is
  exactly what numpy executes.
* Python string helpers (`in`, `startswith`, `lower`) are embedded as
  executable functions on the character data of `String`.
-/

/-- Python `s.startswith(p)`: is `p` a leading segment of `s`? -/
def listStarts : List Char → List Char → Bool
  | [], _ => true
  | _ :: _, [] => false
  | a :: as, b :: bs => a == b && listStarts as bs

/-- Python `needle in hay` for strings: occurrence at some offset. -/
def listInfix (needle : List Char) : List Char → Bool
  | [] => needle.isEmpty
  | c :: rest => listStarts needle (c :: rest) || listInfix needle rest

/-- Python substring test `needle in hay`. -/
def containsSub (needle hay : String) : Bool :=
  listInfix needle.data hay.data

/-- Python `s.startswith(p)` on `String`. -/
def strStarts (s p : String) : Bool :=
  listStarts p.data s.data

/-- Python `s.lower()` (the keywords in play are ASCII). -/
def lowerStr (s : String) : List Char :=
  s.data.map Char.toLower

/-- Digit string to number, most significant first. -/
def digitsToNat (cs : List Char) : Nat :=
  cs.foldl (fun acc c => 10 * acc + (c.toNat - '0'.toNat)) 0

/-- Python `float(...)` on a literal made of digits with at most one dot
(the comma has already been removed by `.replace(',', '')`). -/
def parseDec (cs : List Char) : ℚ :=
  match cs.splitOn '.' with
  | [intPart, fracPart] =>
    (digitsToNat intPart : ℚ) + (digitsToNat fracPart : ℚ) / 10 ^ fracPart.length
  | [intPart] => (digitsToNat intPart : ℚ)
  | _ => 0

/-- Match of the regex `\d+[\.,]\d{1,2}` anchored at the start of `cs`:
a maximal digit run (backtracking the greedy `\d+` cannot succeed, since a
shorter run leaves a digit where the separator must be), then `.` or `,`,
then one or two digits (greedy). -/
def priceMatchAt (cs : List Char) : Option (List Char) :=
  let run := cs.takeWhile Char.isDigit
  if run.isEmpty then none
  else
    match cs.drop run.length with
    | sep :: a :: rest =>
      if (sep == '.' || sep == ',') && a.isDigit then
        match rest with
        | b :: _ => if b.isDigit then some (run ++ [sep, a, b]) else some (run ++ [sep, a])
        | [] => some (run ++ [sep, a])
      else none
    | _ => none

/-- Python `re.search(r'(\d+[\.,]\d{1,2})', s)`: leftmost match wins. -/
def priceSearch : List Char → Option (List Char)
  | [] => none
  | c :: rest =>
    match priceMatchAt (c :: rest) with
    | some m => some m
    | none => priceSearch rest

/-- Value left in `product['price']` after the price-cleaning block of
`scrape_with_retry` (main.py lines 126-129): the extracted text is kept
verbatim unless it is non-empty and the regex finds a match, in which case
it is replaced by the parsed float. -/
inductive PriceField where
  | raw (s : String)
  | num (q : ℚ)
deriving DecidableEq

/-- Price cleaning of `scrape_with_retry` (main.py lines 126-129). -/
def normalizePrice (s : String) : PriceField :=
  if s.data.isEmpty then .raw s
  else
    match priceSearch s.data with
    | some m => .num (parseDec (m.filter (fun c => !(c == ','))))
    | none => .raw s

/-- Keyword set for Dog (main.py line 134). -/
def dogTerms : List String := ["dog", "puppy", "canine", "k9"]

/-- Keyword set for Cat (main.py line 135). -/
def catTerms : List String := ["cat", "kitten", "feline"]

/-- Keyword set for Fish (main.py line 136). -/
def fishTerms : List String := ["fish", "aquarium", "aquatic"]

/-- Keyword set for Bird (main.py line 137). -/
def birdTerms : List String := ["bird", "parrot", "avian"]

/-- The `pet_keywords` dict in its insertion (= iteration) order. -/
def petKeywords : List (String × List String) :=
  [("Dog", dogTerms), ("Cat", catTerms), ("Fish", fishTerms), ("Bird", birdTerms)]

/-- Python `any(t in url.lower() or (title and t in title.lower()) for t in terms)`;
for an empty title the `title and ...` short-circuit equals the substring
test on the empty string, so both are embedded as the latter. -/
def kwMatch (terms : List String) (url title : String) : Bool :=
  terms.any (fun t => listInfix t.data (lowerStr url) || listInfix t.data (lowerStr title))

/-- The `for animal, terms in pet_keywords.items()` loop with its `break`. -/
def petTypeGo (url title : String) : List (String × List String) → String
  | [] => "Other"
  | (animal, terms) :: rest =>
    if kwMatch terms url title then animal else petTypeGo url title rest

/-- Pet-type detection of `scrape_with_retry` (main.py lines 131-143). -/
def petTypeOf (url title : String) : String :=
  petTypeGo url title petKeywords

/-- One row of the `products` table (main.py lines 18-20): columns
`(id, title, description, price, url, image, pet_type)`.  The `image` blob
is modelled as a `String` payload. -/
structure Row where
  id : String
  title : String
  description : String
  price : PriceField
  url : String
  image : String
  petType : String
deriving DecidableEq

/-- Default row used only as the (never-reached) fallback of list lookups. -/
def dfltRow : Row :=
  { id := "", title := "", description := "", price := .raw "", url := "", image := "", petType := "" }

/-- SQLite `INSERT OR IGNORE INTO products VALUES (...)` keyed on the
primary key `id` (main.py lines 159-162): insert only if no row with the
same id exists. -/
def upsertIgnore (store : List Row) (r : Row) : List Row :=
  if store.any (fun x => x.id == r.id) then store else store ++ [r]

/-- Outcome of one `requests.get` attempt inside `scrape_with_retry`:
a page (already reduced to the four `safe_get` extraction results), a
transient error (`Timeout` / `ConnectionError`, retried), or any other
exception (returned immediately as `None`). -/
inductive FetchOutcome where
  | ok (title description priceText imageSrc : String)
  | transient
  | fatalErr
deriving DecidableEq

/-- Record construction on the successful path of `scrape_with_retry`
(main.py lines 121-161): price cleaning, pet-type detection, image fetch
(only for http(s) sources; a failed or non-200 fetch yields an empty blob),
and the sha256-of-url id. -/
def buildRow (hashFn : String → String) (imgOracle : String → Option String)
    (url title description priceText imageSrc : String) : Row :=
  { id := hashFn url
    title := title
    description := description
    price := normalizePrice priceText
    url := url
    image :=
      if !imageSrc.data.isEmpty && strStarts imageSrc "http" then
        (imgOracle imageSrc).getD ""
      else ""
    petType := petTypeOf url title }

/-- The `for attempt in range(retries)` loop of `scrape_with_retry`
(main.py lines 115-175): on success build the record, `INSERT OR IGNORE`
it and return it; on a transient error move to the next attempt; on any
other error return `None` at once; after the last attempt return `None`.
First component: the returned value; second: the store afterwards. -/
def scrapeGo (hashFn : String → String) (imgOracle : String → Option String)
    (oracle : Nat → FetchOutcome) (url : String) (store : List Row) :
    Nat → Nat → Option Row × List Row
  | 0, _ => (none, store)
  | remaining + 1, attempt =>
    match oracle attempt with
    | .ok t d p i =>
      let row := buildRow hashFn imgOracle url t d p i
      (some row, upsertIgnore store row)
    | .transient => scrapeGo hashFn imgOracle oracle url store remaining (attempt + 1)
    | .fatalErr => (none, store)

/-- `scrape_with_retry(url, retries)` (main.py lines 114-175). -/
def scrapeWithRetry (hashFn : String → String) (imgOracle : String → Option String)
    (oracle : Nat → FetchOutcome) (url : String) (retries : Nat) (store : List Row) :
    Option Row × List Row :=
  scrapeGo hashFn imgOracle oracle url store retries 0

/-- URL patterns marking product links (main.py line 100). -/
def productPatterns : List String :=
  ["/b/", "/dp/", "/product/", "/p/", "/shop/", "-food", "-toys", "/category/", "item"]

/-- The `for link in soup.find_all('a', href=True)` body of `crawl_site`
(main.py lines 92-104), folded over the page's links.  Links are supplied
already resolved to absolute URLs (`urljoin` is abstracted away; the
pattern tests below run on that full URL string, as in the source).
Returns the updated `(product_links, to_visit)` accumulators. -/
def processLinks (seed : String) (depth : Nat) :
    List String → List String → List String → List String × List String
  | [], productLinks, toVisit => (productLinks, toVisit)
  | href :: rest, productLinks, toVisit =>
    if href.data.isEmpty || strStarts href "javascript:" || strStarts href "mailto:" then
      processLinks seed depth rest productLinks toVisit
    else if productPatterns.any (fun pat => containsSub pat href) then
      if !(productLinks.contains href) && !(containsSub "customer-reviews" href) then
        processLinks seed depth rest (productLinks ++ [href]) toVisit
      else
        processLinks seed depth rest productLinks toVisit
    else if decide (1 < depth) && strStarts href seed && !(href.data.contains '#') then
      processLinks seed depth rest productLinks (toVisit ++ [href])
    else
      processLinks seed depth rest productLinks toVisit

/-- Final state of one `crawl_site` invocation.  `fetchLog` is ghost
instrumentation recording, in order, each URL passed to `requests.get`
together with whether that fetch succeeded. -/
structure CrawlOut where
  productLinks : List String
  visited : List String
  depthLeft : Nat
  fetchLog : List (String × Bool)
deriving DecidableEq

/-- Runs `while to_visit and depth > 0` iterations of `crawl_site`
(main.py lines 80-110) for one fixed value of `depth`: pop the head URL;
skip it if already visited; otherwise fetch it.  A failed fetch only logs a
warning (the URL is not marked visited and `depth` is untouched).  A
successful fetch marks the URL visited, classifies the page's links, and
hands the new state to `onSucc`, which continues the loop with the
decremented `depth`. -/
def crawlScan (seed : String) (net : Nat → Option (List String)) (depth : Nat)
    (onSucc : List String → List String → List String → Nat → List (String × Bool) → CrawlOut) :
    List String → List String → List String → Nat → List (String × Bool) → CrawlOut
  | [], visited, productLinks, _, log => ⟨productLinks, visited, depth, log⟩
  | current :: rest, visited, productLinks, fc, log =>
    if current ∈ visited then
      crawlScan seed net depth onSucc rest visited productLinks fc log
    else
      match net fc with
      | none =>
        crawlScan seed net depth onSucc rest visited productLinks (fc + 1)
          (log ++ [(current, false)])
      | some links =>
        let acc := processLinks seed depth links productLinks rest
        onSucc (visited ++ [current]) acc.2 acc.1 (fc + 1) (log ++ [(current, true)])

/-- The `while to_visit and depth > 0` loop of `crawl_site`, indexed by the
remaining `depth` budget: the loop exits when `depth` hits `0` or the
frontier empties; `depth -= 1` (main.py line 106) runs only at the end of
the `try` block, i.e. only after a successful fetch. -/
def crawlFrom (seed : String) (net : Nat → Option (List String)) :
    Nat → List String → List String → List String → Nat → List (String × Bool) → CrawlOut
  | 0, visited, _, productLinks, _, log => ⟨productLinks, visited, 0, log⟩
  | d + 1, visited, toVisit, productLinks, fc, log =>
    crawlScan seed net (d + 1)
      (fun v2 tv2 pl2 fc2 log2 => crawlFrom seed net d v2 tv2 pl2 fc2 log2)
      toVisit visited productLinks fc log

/-- `crawl_site(url, depth)` (main.py lines 75-112): `visited = set()`,
`to_visit = [url]`, `product_links = []`.  (The final
`list(set(product_links))` only drops the order of the accumulated links;
the claims below are stated via membership and counts, which it leaves
unchanged.) -/
def crawlSite (seed : String) (net : Nat → Option (List String)) (depth : Nat) : CrawlOut :=
  crawlFrom seed net depth [] [seed] [] 0 []

/-- How many times `url` was passed to `requests.get` during the crawl. -/
def countFetches (log : List (String × Bool)) (url : String) : Nat :=
  (log.filter (fun e => e.1 == url)).length

/-- How many fetches of `url` succeeded during the crawl. -/
def countSuccFetches (log : List (String × Bool)) (url : String) : Nat :=
  (log.filter (fun e => e.1 == url && e.2)).length

/-- How many fetches succeeded overall during the crawl. -/
def totalSuccFetches (log : List (String × Bool)) : Nat :=
  (log.filter (fun e => e.2)).length

/-- Comparator fed to the argsort: compare similarity scores. -/
def simLe (g : Nat → ℚ) (i j : Nat) : Bool :=
  decide (g i ≤ g j)

/-- One insertion step of insertion sort (stable: the inserted element goes
in front of the first element it compares `≤` to). -/
def insertSorted (le : Nat → Nat → Bool) (x : Nat) : List Nat → List Nat
  | [] => [x]
  | y :: ys => if le x y then x :: y :: ys else y :: insertSorted le x ys

/-- Insertion sort. -/
def isort (le : Nat → Nat → Bool) : List Nat → List Nat
  | [] => []
  | x :: xs => insertSorted le x (isort le xs)

/-- `similarities.argsort()` (main.py line 206): the indices sorted by
ascending score, embedded as insertion sort.  Faithful to numpy's default
sort below its small-sort cutoff (there introsort runs insertion sort);
above it numpy is unstable, so only tie-insensitive consequences of this
embedding (permutation of the indices, ascending scores) are used in the
theorems that quantify over all corpus sizes. -/
def argsort (sims : List ℚ) : List Nat :=
  isort (simLe (fun i => sims.getD i 0)) (List.range sims.length)

/-- Python slice `xs[-k:]` (note that `xs[-0:]` is all of `xs`). -/
def tailSlice (k : Nat) (xs : List Nat) : List Nat :=
  if k = 0 then xs else xs.drop (xs.length - k)

/-- `similarities.argsort()[-top_k:][::-1]` (main.py line 206). -/
def topIndices (sims : List ℚ) (k : Nat) : List Nat :=
  (tailSlice k (argsort sims)).reverse

/-- `df.iloc[top_indices]` with the `similarity` column attached
(main.py lines 207-208). -/
def topK (df : List Row) (sims : List ℚ) (k : Nat) : List (Row × ℚ) :=
  (topIndices sims k).map (fun i => (df.getD i dfltRow, sims.getD i 0))

/-- `vectorize_products()` (main.py lines 177-193): `(None, None)` on an
empty table, otherwise the dataframe of all rows.  The fitted TF-IDF matrix
itself is abstracted away; in the source it is `None` exactly when the
dataframe is, so the pair is modelled by one `Option`. -/
def vectorizeProducts (store : List Row) : Option (List Row) :=
  if store.isEmpty then none else some store

/-- `search_products(query, df, vectors, top_k)` (main.py lines 195-210);
`simRow` abstracts `cosine_similarity(vectorizer.transform([query]),
vectors).flatten()`, giving one score per corpus row. -/
def searchProducts (simRow : String → List ℚ) (query : String)
    (df : Option (List Row)) (k : Nat) : List (Row × ℚ) :=
  match df with
  | none => []
  | some df => topK df (simRow query) k

/-- Ascending-score order refined by original index: what a stable
ascending argsort of distinct indices produces. -/
def lexLe (g : Nat → ℚ) (i j : Nat) : Prop :=
  g i < g j ∨ (g i = g j ∧ i ≤ j)

/-- Concrete corpus row used in counterexamples and witnesses. -/
def rowA : Row :=
  { dfltRow with id := "a", title := "Premium Dog Kibble", url := "https://s.example/a" }

/-- Second concrete corpus row, distinct from `rowA`. -/
def rowB : Row :=
  { dfltRow with id := "b", title := "Feather Teaser", url := "https://s.example/b" }

theorem mem_insertSorted (le : Nat → Nat → Bool) (x y : Nat) (l : List Nat) :
    y ∈ insertSorted le x l ↔ y = x ∨ y ∈ l := by
  induction l with
  | nil => simp [insertSorted]
  | cons z zs ih =>
    cases hlz : le x z with
    | true => simp [insertSorted, hlz]
    | false =>
      simp [insertSorted, hlz, ih]
      tauto

theorem perm_insertSorted (le : Nat → Nat → Bool) (x : Nat) (l : List Nat) :
    List.Perm (insertSorted le x l) (x :: l) := by
  induction l with
  | nil => simp [insertSorted]
  | cons z zs ih =>
    cases hlz : le x z with
    | true => simp [insertSorted, hlz]
    | false =>
      have e : insertSorted le x (z :: zs) = z :: insertSorted le x zs := by
        simp [insertSorted, hlz]
      rw [e]
      exact (ih.cons z).trans (List.Perm.swap x z zs)

theorem perm_isort (le : Nat → Nat → Bool) (l : List Nat) :
    List.Perm (isort le l) l := by
  induction l with
  | nil => simp [isort]
  | cons x xs ih =>
    exact (perm_insertSorted le x (isort le xs)).trans (ih.cons x)

theorem pairwise_insertSorted (g : Nat → ℚ) (x : Nat) (l : List Nat)
    (hl : l.Pairwise (lexLe g)) (hx : ∀ j ∈ l, x ≤ j) :
    (insertSorted (simLe g) x l).Pairwise (lexLe g) := by
  induction l with
  | nil => simp [insertSorted]
  | cons z zs ih =>
    rw [List.pairwise_cons] at hl
    obtain ⟨hzall, hzs⟩ := hl
    cases hle : simLe g x z with
    | true =>
      have hxz : g x ≤ g z := by simpa [simLe] using hle
      have e : insertSorted (simLe g) x (z :: zs) = x :: z :: zs := by
        simp [insertSorted, hle]
      rw [e, List.pairwise_cons]
      constructor
      · intro b hb
        have hxb : g x ≤ g b := by
          rcases List.mem_cons.mp hb with rfl | hbz
          · exact hxz
          · refine hxz.trans ?_
            rcases hzall b hbz with h | ⟨h, _⟩
            · exact le_of_lt h
            · exact le_of_eq h
        rcases lt_or_eq_of_le hxb with h | h
        · exact Or.inl h
        · exact Or.inr ⟨h, hx b hb⟩
      · rw [List.pairwise_cons]
        exact ⟨hzall, hzs⟩
    | false =>
      have hzx : g z < g x := by
        have h : ¬ g x ≤ g z := by simpa [simLe] using hle
        exact not_le.mp h
      have e : insertSorted (simLe g) x (z :: zs) = z :: insertSorted (simLe g) x zs := by
        simp [insertSorted, hle]
      rw [e, List.pairwise_cons]
      refine ⟨?_, ih hzs (fun j hj => hx j (List.mem_cons_of_mem z hj))⟩
      intro b hb
      rcases (mem_insertSorted (simLe g) x b zs).mp hb with rfl | hbz
      · exact Or.inl hzx
      · exact hzall b hbz

theorem pairwise_isort (g : Nat → ℚ) (l : List Nat) (hl : l.Pairwise (· < ·)) :
    (isort (simLe g) l).Pairwise (lexLe g) := by
  induction l with
  | nil => simp [isort]
  | cons x xs ih =>
    rw [List.pairwise_cons] at hl
    refine pairwise_insertSorted g x (isort (simLe g) xs) (ih hl.2) ?_
    intro j hj
    exact le_of_lt (hl.1 j ((perm_isort (simLe g) xs).mem_iff.mp hj))

theorem argsort_perm (sims : List ℚ) :
    List.Perm (argsort sims) (List.range sims.length) :=
  perm_isort _ _

theorem argsort_length (sims : List ℚ) : (argsort sims).length = sims.length :=
  (argsort_perm sims).length_eq.trans (List.length_range _)

theorem argsort_pairwise (sims : List ℚ) :
    (argsort sims).Pairwise (lexLe (fun i => sims.getD i 0)) :=
  pairwise_isort _ _ (List.pairwise_lt_range _)

theorem argsort_nodup (sims : List ℚ) : (argsort sims).Nodup :=
  (argsort_perm sims).symm.nodup (List.nodup_range _)

theorem tailSlice_sublist (k : Nat) (xs : List Nat) : List.Sublist (tailSlice k xs) xs := by
  rw [tailSlice]
  split
  · exact List.Sublist.refl xs
  · exact List.drop_sublist _ _

theorem topIndices_pairwise (sims : List ℚ) (k : Nat) :
    (topIndices sims k).Pairwise (fun i j =>
      sims.getD j 0 < sims.getD i 0 ∨ (sims.getD i 0 = sims.getD j 0 ∧ j < i)) := by
  have h1 : (argsort sims).Pairwise
      (fun i j => lexLe (fun i => sims.getD i 0) i j ∧ i ≠ j) :=
    (argsort_pairwise sims).and (argsort_nodup sims)
  have h2 := h1.sublist (tailSlice_sublist k (argsort sims))
  rw [topIndices, List.pairwise_reverse]
  refine h2.imp ?_
  rintro a b ⟨hab, hne⟩
  rcases hab with h | ⟨heq, hle⟩
  · exact Or.inl h
  · exact Or.inr ⟨heq.symm, lt_of_le_of_ne hle hne⟩

theorem topIndices_length (sims : List ℚ) (k : Nat) (hk : 1 ≤ k) :
    (topIndices sims k).length = min k sims.length := by
  rw [topIndices, List.length_reverse, tailSlice, if_neg (by omega), List.length_drop,
    argsort_length]
  omega

theorem map_getD_range {α : Type} (l : List α) (d : α) :
    (List.range l.length).map (fun i => l.getD i d) = l := by
  induction l with
  | nil => simp
  | cons x xs ih =>
    rw [List.length_cons, List.range_succ_eq_map]
    simp only [List.map_cons, List.map_map, List.getD_cons_zero]
    congr 1

theorem vectorizeProducts_nonempty (df : List Row) (hdf : df ≠ []) :
    vectorizeProducts df = some df := by
  cases df with
  | nil => exact absurd rfl hdf
  | cons y ys => rfl

/-- Claim C1 counterexample: on a two-row corpus where both rows score the
same similarity, `search_products` returns them in REVERSED corpus order
`[rowB, rowA]`, not in the stable original corpus order `[rowA, rowB]` that
the claim states (the ascending argsort slice is reversed wholesale). -/
theorem search_tie_order_counterexample :
    searchProducts (fun _ => [0, 0]) "collar" (vectorizeProducts [rowA, rowB]) 2
      = [(rowB, 0), (rowA, 0)]
    ∧ [(rowB, (0 : ℚ)), (rowA, 0)] ≠ [(rowA, 0), (rowB, 0)] := by
  constructor
  · decide
  · decide

/-- Claim C1 (amended): for every fitted index (non-empty corpus), every
query and every k ≥ 1, `search_products` returns exactly `min k n` results
— hence at most `k`, and fewer than `k` exactly when the corpus has fewer
than `k` rows — ordered by non-increasing similarity score.  Ties are NOT
broken by original corpus order (stable), as the counterexample shows; no
tie order is asserted here, since these conclusions depend only on
`argsort` returning the indices ascending by score, which holds for
numpy's argsort of any sort kind. -/
theorem search_topk_amended (simRow : String → List ℚ) (q : String) (df : List Row)
    (k : Nat) (hk : 1 ≤ k) (hdf : df ≠ [])
    (hlen : (simRow q).length = df.length) :
    (searchProducts simRow q (vectorizeProducts df) k).length = min k df.length
    ∧ ((searchProducts simRow q (vectorizeProducts df) k).length < k ↔ df.length < k)
    ∧ (searchProducts simRow q (vectorizeProducts df) k).Pairwise (fun a b => b.2 ≤ a.2) := by
  rw [vectorizeProducts_nonempty df hdf]
  simp only [searchProducts]
  have hlen1 : (topK df (simRow q) k).length = min k df.length := by
    rw [topK, List.length_map, topIndices_length _ _ hk, hlen]
  refine ⟨hlen1, by rw [hlen1]; omega, ?_⟩
  rw [topK, List.pairwise_map]
  refine (topIndices_pairwise (simRow q) k).imp ?_
  intro i j h
  rcases h with h | ⟨heq, _⟩
  · exact le_of_lt h
  · exact le_of_eq heq.symm

/-- Witness for C1 (amended) at a concrete one-row corpus. -/
theorem search_topk_amended_witness :
    (searchProducts (fun _ => [(1 : ℚ)]) "toy" (vectorizeProducts [rowA]) 1).length
        = min 1 [rowA].length
    ∧ ((searchProducts (fun _ => [(1 : ℚ)]) "toy" (vectorizeProducts [rowA]) 1).length < 1
        ↔ [rowA].length < 1)
    ∧ (searchProducts (fun _ => [(1 : ℚ)]) "toy" (vectorizeProducts [rowA]) 1).Pairwise
        (fun a b => b.2 ≤ a.2) :=
  search_topk_amended (fun _ => [(1 : ℚ)]) "toy" [rowA] 1 (Nat.le_refl 1)
    (List.cons_ne_nil rowA []) rfl

/-- Claim C7: an empty corpus gives the explicit empty index (`None`), and
every search against it returns the empty result list instead of erroring. -/
theorem search_empty_corpus :
    vectorizeProducts [] = none
    ∧ ∀ (simRow : String → List ℚ) (q : String) (k : Nat),
        searchProducts simRow q (vectorizeProducts []) k = [] :=
  ⟨rfl, fun _ _ _ => rfl⟩

/-- Claim C8: for a non-empty corpus of n rows and k ≥ 1, search returns
exactly min(k, n) results for EVERY similarity row — no minimum-score
filtering — and when k ≥ n the returned rows are a permutation of the whole
corpus, zero-similarity rows included. -/
theorem search_count_min_k_n (simRow : String → List ℚ) (q : String) (df : List Row)
    (k : Nat) (hk : 1 ≤ k) (hdf : df ≠ [])
    (hlen : (simRow q).length = df.length) :
    (searchProducts simRow q (vectorizeProducts df) k).length = min k df.length
    ∧ (df.length ≤ k →
        List.Perm ((searchProducts simRow q (vectorizeProducts df) k).map Prod.fst) df) := by
  rw [vectorizeProducts_nonempty df hdf]
  simp only [searchProducts]
  constructor
  · rw [topK, List.length_map, topIndices_length _ _ hk, hlen]
  · intro hkn
    have htail : tailSlice k (argsort (simRow q)) = argsort (simRow q) := by
      rw [tailSlice, if_neg (by omega), argsort_length, hlen,
        Nat.sub_eq_zero_of_le hkn, List.drop_zero]
    have hrange := argsort_perm (simRow q)
    rw [hlen] at hrange
    have hperm : List.Perm (topIndices (simRow q) k) (List.range df.length) := by
      rw [topIndices, htail]
      exact (List.reverse_perm _).trans hrange
    have hmap : (topK df (simRow q) k).map Prod.fst
        = (topIndices (simRow q) k).map (fun i => df.getD i dfltRow) := by
      rw [topK, List.map_map]
      rfl
    rw [hmap]
    have h2 := hperm.map (fun i => df.getD i dfltRow)
    rw [map_getD_range df dfltRow] at h2
    exact h2

/-- Witness for C8 at a concrete one-row corpus with k = 2 > n = 1. -/
theorem search_count_min_k_n_witness :
    (searchProducts (fun _ => [(0 : ℚ)]) "dog food" (vectorizeProducts [rowA]) 2).length
        = min 2 [rowA].length
    ∧ ([rowA].length ≤ 2 →
        List.Perm ((searchProducts (fun _ => [(0 : ℚ)]) "dog food"
          (vectorizeProducts [rowA]) 2).map Prod.fst) [rowA]) :=
  search_count_min_k_n (fun _ => [(0 : ℚ)]) "dog food" [rowA] 2 (by omega)
    (List.cons_ne_nil rowA []) rfl

theorem crawlScan_nil (seed : String) (net : Nat → Option (List String)) (depth : Nat)
    (onSucc : List String → List String → List String → Nat → List (String × Bool) → CrawlOut)
    (v pl : List String) (fc : Nat) (log : List (String × Bool)) :
    crawlScan seed net depth onSucc [] v pl fc log = ⟨pl, v, depth, log⟩ :=
  rfl

theorem crawlScan_skip (seed : String) (net : Nat → Option (List String)) (depth : Nat)
    (onSucc : List String → List String → List String → Nat → List (String × Bool) → CrawlOut)
    (current : String) (rest v pl : List String) (fc : Nat) (log : List (String × Bool))
    (hv : current ∈ v) :
    crawlScan seed net depth onSucc (current :: rest) v pl fc log
      = crawlScan seed net depth onSucc rest v pl fc log := by
  simp [crawlScan, hv]

theorem crawlScan_fail (seed : String) (net : Nat → Option (List String)) (depth : Nat)
    (onSucc : List String → List String → List String → Nat → List (String × Bool) → CrawlOut)
    (current : String) (rest v pl : List String) (fc : Nat) (log : List (String × Bool))
    (hv : current ∉ v) (hnet : net fc = none) :
    crawlScan seed net depth onSucc (current :: rest) v pl fc log
      = crawlScan seed net depth onSucc rest v pl (fc + 1) (log ++ [(current, false)]) := by
  simp [crawlScan, hv, hnet]

theorem crawlScan_fetch (seed : String) (net : Nat → Option (List String)) (depth : Nat)
    (onSucc : List String → List String → List String → Nat → List (String × Bool) → CrawlOut)
    (current : String) (rest v pl : List String) (fc : Nat) (log : List (String × Bool))
    (links : List String) (hv : current ∉ v) (hnet : net fc = some links) :
    crawlScan seed net depth onSucc (current :: rest) v pl fc log
      = onSucc (v ++ [current]) (processLinks seed depth links pl rest).2
          (processLinks seed depth links pl rest).1 (fc + 1) (log ++ [(current, true)]) := by
  simp [crawlScan, hv, hnet]

theorem countSuccFetches_append_false (log : List (String × Bool)) (c u : String) :
    countSuccFetches (log ++ [(c, false)]) u = countSuccFetches log u := by
  simp [countSuccFetches]

theorem countSuccFetches_append_true (log : List (String × Bool)) (c u : String) :
    countSuccFetches (log ++ [(c, true)]) u
      = countSuccFetches log u + (if c = u then 1 else 0) := by
  by_cases h : c = u <;> simp [countSuccFetches, h]

theorem totalSuccFetches_append (log : List (String × Bool)) (c : String) (b : Bool) :
    totalSuccFetches (log ++ [(c, b)]) = totalSuccFetches log + (if b then 1 else 0) := by
  cases b <;> simp [totalSuccFetches]

theorem crawlScan_succCount (seed : String) (net : Nat → Option (List String)) (depth : Nat)
    (onSucc : List String → List String → List String → Nat → List (String × Bool) → CrawlOut)
    (hOn : ∀ v tv pl fc log,
      (∀ u, countSuccFetches log u = if u ∈ v then 1 else 0) →
      ∀ u, countSuccFetches (onSucc v tv pl fc log).fetchLog u
        = if u ∈ (onSucc v tv pl fc log).visited then 1 else 0)
    (tv : List String) :
    ∀ (v pl : List String) (fc : Nat) (log : List (String × Bool)),
      (∀ u, countSuccFetches log u = if u ∈ v then 1 else 0) →
      ∀ u, countSuccFetches (crawlScan seed net depth onSucc tv v pl fc log).fetchLog u
        = if u ∈ (crawlScan seed net depth onSucc tv v pl fc log).visited then 1 else 0 := by
  induction tv with
  | nil =>
    intro v pl fc log hinv u
    rw [crawlScan_nil]
    exact hinv u
  | cons current rest ih =>
    intro v pl fc log hinv u
    by_cases hv : current ∈ v
    · rw [crawlScan_skip seed net depth onSucc current rest v pl fc log hv]
      exact ih v pl fc log hinv u
    · cases hnet : net fc with
      | none =>
        rw [crawlScan_fail seed net depth onSucc current rest v pl fc log hv hnet]
        refine ih v pl (fc + 1) (log ++ [(current, false)]) ?_ u
        intro w
        rw [countSuccFetches_append_false]
        exact hinv w
      | some links =>
        rw [crawlScan_fetch seed net depth onSucc current rest v pl fc log links hv hnet]
        refine hOn _ _ _ _ _ ?_ u
        intro w
        rw [countSuccFetches_append_true]
        by_cases hw : current = w
        · subst hw
          rw [hinv current, if_neg hv]
          simp
        · rw [hinv w, if_neg hw]
          have hmem : (w ∈ v ++ [current]) ↔ w ∈ v := by
            simp [List.mem_append, Ne.symm hw]
          by_cases hwv : w ∈ v
          · rw [if_pos hwv, if_pos (hmem.mpr hwv)]
          · rw [if_neg hwv, if_neg (fun hc => hwv (hmem.mp hc))]

theorem crawlFrom_succCount (seed : String) (net : Nat → Option (List String)) :
    ∀ (depth : Nat) (v tv pl : List String) (fc : Nat) (log : List (String × Bool)),
      (∀ u, countSuccFetches log u = if u ∈ v then 1 else 0) →
      ∀ u, countSuccFetches (crawlFrom seed net depth v tv pl fc log).fetchLog u
        = if u ∈ (crawlFrom seed net depth v tv pl fc log).visited then 1 else 0 := by
  intro depth
  induction depth with
  | zero =>
    intro v tv pl fc log hinv u
    exact hinv u
  | succ d ih =>
    intro v tv pl fc log hinv u
    exact crawlScan_succCount seed net (d + 1) _
      (fun v2 tv2 pl2 fc2 log2 h => ih v2 tv2 pl2 fc2 log2 h) tv v pl fc log hinv u

/-- Claim C4 (amended): within one crawl invocation no URL is SUCCESSFULLY
fetched more than once — the `visited` set records exactly the successfully
fetched URLs, and a frontier URL already in it is skipped.  A URL whose
earlier fetch attempt FAILED is not marked visited and is fetched again if
it reappears in the frontier (see the counterexample). -/
theorem crawl_success_fetch_at_most_once (seed : String) (net : Nat → Option (List String))
    (depth : Nat) (u : String) :
    countSuccFetches ((crawlSite seed net depth).fetchLog) u ≤ 1 := by
  have h := crawlFrom_succCount seed net depth [] [seed] [] 0 []
    (by intro w; simp [countSuccFetches]) u
  rw [crawlSite, h]
  split <;> omega

/-- Claim C4 counterexample: the seed page links twice to a URL all of whose
fetches fail; that URL is popped from the frontier twice and `requests.get`
is called on it twice within one crawl invocation. -/
theorem crawl_refetch_counterexample :
    countFetches ((crawlSite "https://s.example/"
        (fun n => match n with
          | 0 => some ["https://s.example/a", "https://s.example/a"]
          | _ => none) 3).fetchLog) "https://s.example/a" = 2 := by
  decide

theorem crawlScan_depthCount (seed : String) (net : Nat → Option (List String)) (d : Nat)
    (onSucc : List String → List String → List String → Nat → List (String × Bool) → CrawlOut)
    (hOn : ∀ v tv pl fc log,
      (onSucc v tv pl fc log).depthLeft + totalSuccFetches (onSucc v tv pl fc log).fetchLog
        = d + totalSuccFetches log)
    (tv : List String) :
    ∀ (v pl : List String) (fc : Nat) (log : List (String × Bool)),
      (crawlScan seed net (d + 1) onSucc tv v pl fc log).depthLeft
        + totalSuccFetches (crawlScan seed net (d + 1) onSucc tv v pl fc log).fetchLog
        = (d + 1) + totalSuccFetches log := by
  induction tv with
  | nil =>
    intro v pl fc log
    rw [crawlScan_nil]
  | cons current rest ih =>
    intro v pl fc log
    by_cases hv : current ∈ v
    · rw [crawlScan_skip seed net (d + 1) onSucc current rest v pl fc log hv]
      exact ih v pl fc log
    · cases hnet : net fc with
      | none =>
        rw [crawlScan_fail seed net (d + 1) onSucc current rest v pl fc log hv hnet,
          ih v pl (fc + 1) (log ++ [(current, false)]), totalSuccFetches_append]
        simp
      | some links =>
        rw [crawlScan_fetch seed net (d + 1) onSucc current rest v pl fc log links hv hnet,
          hOn, totalSuccFetches_append]
        simp
        omega

theorem crawlFrom_depthCount (seed : String) (net : Nat → Option (List String)) :
    ∀ (depth : Nat) (v tv pl : List String) (fc : Nat) (log : List (String × Bool)),
      (crawlFrom seed net depth v tv pl fc log).depthLeft
        + totalSuccFetches (crawlFrom seed net depth v tv pl fc log).fetchLog
        = depth + totalSuccFetches log := by
  intro depth
  induction depth with
  | zero =>
    intro v tv pl fc log
    simp [crawlFrom]
  | succ d ih =>
    intro v tv pl fc log
    exact crawlScan_depthCount seed net d _
      (fun v2 tv2 pl2 fc2 log2 => ih v2 tv2 pl2 fc2 log2) tv v pl fc log

/-- Claim C5 (amended): in every crawl invocation the remaining depth budget
is decremented exactly once per SUCCESSFULLY fetched frontier URL: the final
budget plus the number of successful fetches equals the initial budget.
Pops that are skipped as already visited, and pops whose fetch fails, do not
consume budget (the claim said every popped URL does; see the
counterexample). -/
theorem crawl_depth_counts_successes (seed : String) (net : Nat → Option (List String))
    (depth : Nat) :
    (crawlSite seed net depth).depthLeft
      + totalSuccFetches ((crawlSite seed net depth).fetchLog) = depth := by
  have h := crawlFrom_depthCount seed net depth [] [seed] [] 0 []
  simpa [crawlSite, totalSuccFetches] using h

/-- Claim C5 counterexample: with depth budget 1 and a seed whose fetch
fails, one frontier URL is popped and processed (one fetch is logged), yet
the final depth budget is still 1 — the decrement sits at the end of the
`try` block and is skipped on fetch failure. -/
theorem crawl_depth_failure_counterexample :
    (crawlSite "https://s.example/" (fun _ => none) 1).depthLeft = 1
    ∧ ((crawlSite "https://s.example/" (fun _ => none) 1).fetchLog).length = 1 := by
  constructor
  · decide
  · decide

theorem processLinks_mono (seed : String) (depth : Nat) (hrefs : List String) :
    ∀ (pl tv : List String) (link : String), link ∈ pl →
      link ∈ (processLinks seed depth hrefs pl tv).1 := by
  induction hrefs with
  | nil =>
    intro pl tv link h
    exact h
  | cons href rest ih =>
    intro pl tv link h
    simp only [processLinks]
    split_ifs with h1 h2 h3 h4
    · exact ih _ _ _ h
    · exact ih _ _ _ (List.mem_append_left _ h)
    · exact ih _ _ _ h
    · exact ih _ _ _ h
    · exact ih _ _ _ h

theorem processLinks_mem (seed : String) (depth : Nat) (hrefs : List String) :
    ∀ (pl tv : List String) (link : String), link ∈ hrefs →
      (link.data.isEmpty || strStarts link "javascript:" || strStarts link "mailto:") = false →
      productPatterns.any (fun pat => containsSub pat link) = true →
      containsSub "customer-reviews" link = false →
      link ∈ (processLinks seed depth hrefs pl tv).1 := by
  induction hrefs with
  | nil =>
    intro pl tv link hmem _ _ _
    cases hmem
  | cons href rest ih =>
    intro pl tv link hmem hskip hpat hrev
    rcases List.mem_cons.mp hmem with rfl | hmem2
    · simp only [processLinks]
      rw [if_neg (by simp [hskip]), if_pos hpat]
      by_cases hdup : link ∈ pl
      · rw [if_neg (by simp [hdup])]
        exact processLinks_mono seed depth rest _ _ _ hdup
      · rw [if_pos (by simp [hdup, hrev])]
        exact processLinks_mono seed depth rest _ _ _ (List.mem_append_right _ (by simp))
    · simp only [processLinks]
      split_ifs <;> exact ih _ _ _ hmem2 hskip hpat hrev

theorem crawlScan_pl_mono (seed : String) (net : Nat → Option (List String)) (depth : Nat)
    (onSucc : List String → List String → List String → Nat → List (String × Bool) → CrawlOut)
    (hOn : ∀ v tv pl fc log (link : String), link ∈ pl →
      link ∈ (onSucc v tv pl fc log).productLinks)
    (tv : List String) :
    ∀ (v pl : List String) (fc : Nat) (log : List (String × Bool)) (link : String),
      link ∈ pl → link ∈ (crawlScan seed net depth onSucc tv v pl fc log).productLinks := by
  induction tv with
  | nil =>
    intro v pl fc log link h
    rw [crawlScan_nil]
    exact h
  | cons current rest ih =>
    intro v pl fc log link h
    by_cases hv : current ∈ v
    · rw [crawlScan_skip seed net depth onSucc current rest v pl fc log hv]
      exact ih v pl fc log link h
    · cases hnet : net fc with
      | none =>
        rw [crawlScan_fail seed net depth onSucc current rest v pl fc log hv hnet]
        exact ih v pl (fc + 1) (log ++ [(current, false)]) link h
      | some links =>
        rw [crawlScan_fetch seed net depth onSucc current rest v pl fc log links hv hnet]
        exact hOn _ _ _ _ _ link (processLinks_mono seed depth links pl rest link h)

theorem crawlFrom_pl_mono (seed : String) (net : Nat → Option (List String)) :
    ∀ (depth : Nat) (v tv pl : List String) (fc : Nat) (log : List (String × Bool))
      (link : String), link ∈ pl →
      link ∈ (crawlFrom seed net depth v tv pl fc log).productLinks := by
  intro depth
  induction depth with
  | zero =>
    intro v tv pl fc log link h
    exact h
  | succ d ih =>
    intro v tv pl fc log link h
    exact crawlScan_pl_mono seed net (d + 1) _
      (fun v2 tv2 pl2 fc2 log2 link2 h2 => ih v2 tv2 pl2 fc2 log2 link2 h2)
      tv v pl fc log link h

/-- Claim C9: product-link classification during a crawl matches the
configured pattern substrings against the ENTIRE resolved absolute URL
string — scheme, host, path and query — not only its path: any link of the
seed's page whose full URL contains one of the patterns anywhere (for
example in the hostname) and does not contain "customer-reviews" ends up
accumulated among the crawl's product links. -/
theorem crawl_product_link_full_url (seed : String) (net : Nat → Option (List String))
    (depth : Nat) (hrefs : List String) (link : String)
    (h0 : net 0 = some hrefs) (hd : 1 ≤ depth) (hmem : link ∈ hrefs)
    (hskip : (link.data.isEmpty || strStarts link "javascript:"
        || strStarts link "mailto:") = false)
    (hpat : productPatterns.any (fun pat => containsSub pat link) = true)
    (hrev : containsSub "customer-reviews" link = false) :
    link ∈ (crawlSite seed net depth).productLinks := by
  obtain ⟨d, rfl⟩ : ∃ d, depth = d + 1 := ⟨depth - 1, by omega⟩
  rw [crawlSite]
  have hstep : crawlFrom seed net (d + 1) [] [seed] [] 0 []
      = crawlFrom seed net d ([] ++ [seed]) (processLinks seed (d + 1) hrefs [] []).2
          (processLinks seed (d + 1) hrefs [] []).1 (0 + 1) ([] ++ [(seed, true)]) := by
    show crawlScan seed net (d + 1) _ [seed] [] [] 0 [] = _
    rw [crawlScan_fetch seed net (d + 1) _ seed [] [] [] 0 [] hrefs
      (List.not_mem_nil seed) h0]
  rw [hstep]
  exact crawlFrom_pl_mono seed net d _ _ _ _ _ link
    (processLinks_mem seed (d + 1) hrefs [] [] link hmem hskip hpat hrev)

/-- Witness for C9: a link whose only pattern occurrence ("item") sits in
its HOSTNAME is collected as a product link. -/
theorem crawl_product_link_full_url_witness :
    "https://itemstore.example.com/about"
      ∈ (crawlSite "https://s.example/"
          (fun n => match n with
            | 0 => some ["https://itemstore.example.com/about"]
            | _ => none) 1).productLinks :=
  crawl_product_link_full_url "https://s.example/" _ 1 _ _ rfl (by omega)
    (by simp) (by decide) (by decide) (by decide)

theorem scrapeGo_store (hashFn : String → String) (imgOracle : String → Option String)
    (oracle : Nat → FetchOutcome) (url : String) (store : List Row) :
    ∀ (remaining attempt : Nat),
      (scrapeGo hashFn imgOracle oracle url store remaining attempt).1 = none →
      (scrapeGo hashFn imgOracle oracle url store remaining attempt).2 = store := by
  intro remaining
  induction remaining with
  | zero =>
    intro attempt _
    rfl
  | succ r ih =>
    intro attempt h
    cases horc : oracle attempt with
    | ok t d p i =>
      rw [scrapeGo, horc] at h
      cases h
    | transient =>
      rw [scrapeGo, horc] at h ⊢
      exact ih _ h
    | fatalErr =>
      rw [scrapeGo, horc]

/-- Claim C10: whenever `scrape_with_retry` returns a failure (`None`) —
whether from a non-transient error or from exhausting all retry attempts —
the store after the call is exactly the store before it; a record is
persisted only on the successful path that also returns the product. -/
theorem scrape_failure_store_unchanged (hashFn : String → String)
    (imgOracle : String → Option String) (oracle : Nat → FetchOutcome)
    (url : String) (retries : Nat) (store : List Row)
    (h : (scrapeWithRetry hashFn imgOracle oracle url retries store).1 = none) :
    (scrapeWithRetry hashFn imgOracle oracle url retries store).2 = store :=
  scrapeGo_store hashFn imgOracle oracle url store retries 0 h

/-- Witness for C10: a non-transient error on the first attempt returns
`None` and leaves the store untouched. -/
theorem scrape_failure_store_unchanged_witness :
    (scrapeWithRetry (fun s => s) (fun _ => none) (fun _ => FetchOutcome.fatalErr)
        "https://s.example/a" 3 [rowA]).2 = [rowA] :=
  scrape_failure_store_unchanged (fun s => s) (fun _ => none)
    (fun _ => FetchOutcome.fatalErr) "https://s.example/a" 3 [rowA] rfl

theorem upsertIgnore_nodup (store : List Row) (r : Row)
    (h : (store.map Row.id).Nodup) : ((upsertIgnore store r).map Row.id).Nodup := by
  rw [upsertIgnore]
  split_ifs with hany
  · exact h
  · rw [List.map_append, List.nodup_append]
    refine ⟨h, List.nodup_singleton _, ?_⟩
    intro a ha hb
    rw [List.map_singleton, List.mem_singleton] at hb
    obtain ⟨x, hx, hxa⟩ := List.mem_map.mp ha
    simp only [List.any_eq_true, beq_iff_eq, not_exists] at hany
    exact absurd (hxa.trans hb) (by simpa using fun hc => (hany x) ⟨hx, hc⟩)

theorem upsertIgnore_existing (store : List Row) (r : Row)
    (h : store.any (fun x => x.id == r.id) = true) : upsertIgnore store r = store := by
  rw [upsertIgnore, if_pos h]

theorem buildRow_id (hashFn : String → String) (imgOracle : String → Option String)
    (url t d p i : String) : (buildRow hashFn imgOracle url t d p i).id = hashFn url :=
  rfl

theorem scrapeGo_nodup (hashFn : String → String) (imgOracle : String → Option String)
    (oracle : Nat → FetchOutcome) (url : String) (store : List Row)
    (h : (store.map Row.id).Nodup) :
    ∀ (remaining attempt : Nat),
      ((scrapeGo hashFn imgOracle oracle url store remaining attempt).2.map Row.id).Nodup := by
  intro remaining
  induction remaining with
  | zero =>
    intro _
    exact h
  | succ r ih =>
    intro attempt
    cases horc : oracle attempt with
    | ok t d p i =>
      rw [scrapeGo, horc]
      exact upsertIgnore_nodup _ _ h
    | transient =>
      rw [scrapeGo, horc]
      exact ih _
    | fatalErr =>
      rw [scrapeGo, horc]
      exact h

theorem scrapeGo_existing (hashFn : String → String) (imgOracle : String → Option String)
    (oracle : Nat → FetchOutcome) (url : String) (store : List Row)
    (hexist : store.any (fun x => x.id == hashFn url) = true) :
    ∀ (remaining attempt : Nat),
      (scrapeGo hashFn imgOracle oracle url store remaining attempt).2 = store := by
  intro remaining
  induction remaining with
  | zero =>
    intro _
    rfl
  | succ r ih =>
    intro attempt
    cases horc : oracle attempt with
    | ok t d p i =>
      rw [scrapeGo, horc]
      exact upsertIgnore_existing store _ hexist
    | transient =>
      rw [scrapeGo, horc]
      exact ih _
    | fatalErr =>
      rw [scrapeGo, horc]

/-- Claim C3: the products table holds at most one row per id — the
`INSERT OR IGNORE` upsert preserves distinctness of the id column, also
through whole `scrape_with_retry` calls — and re-scraping a URL whose id
(`sha256(url)`) is already stored leaves the store, hence every field of
the previously stored record, unchanged. -/
theorem store_unique_and_rescrape_noop :
    (∀ (store : List Row) (r : Row),
      (store.map Row.id).Nodup → ((upsertIgnore store r).map Row.id).Nodup)
    ∧ (∀ (hashFn : String → String) (imgOracle : String → Option String)
        (oracle : Nat → FetchOutcome) (url : String) (retries : Nat) (store : List Row),
        (store.map Row.id).Nodup →
        ((scrapeWithRetry hashFn imgOracle oracle url retries store).2.map Row.id).Nodup)
    ∧ (∀ (hashFn : String → String) (imgOracle : String → Option String)
        (oracle : Nat → FetchOutcome) (url : String) (retries : Nat) (store : List Row),
        store.any (fun x => x.id == hashFn url) = true →
        (scrapeWithRetry hashFn imgOracle oracle url retries store).2 = store) :=
  ⟨fun store r h => upsertIgnore_nodup store r h,
   fun hashFn imgOracle oracle url retries store h =>
     scrapeGo_nodup hashFn imgOracle oracle url store h retries 0,
   fun hashFn imgOracle oracle url retries store h =>
     scrapeGo_existing hashFn imgOracle oracle url store h retries 0⟩

/-- Witness for C3: re-scraping (successfully) a URL whose id is already in
the store leaves the stored record untouched. -/
theorem store_unique_and_rescrape_noop_witness :
    (scrapeWithRetry (fun _ => "a") (fun _ => none)
        (fun _ => FetchOutcome.ok "New Title" "New Desc" "$9.99" "")
        "https://s.example/a" 3 [rowA]).2 = [rowA] :=
  store_unique_and_rescrape_noop.2.2 (fun _ => "a") (fun _ => none)
    (fun _ => FetchOutcome.ok "New Title" "New Desc" "$9.99" "")
    "https://s.example/a" 3 [rowA] (by decide)

/-- Claim C6: pet-type classification walks the fixed ordered label list
(Dog, Cat, Fish, Bird); the first label with a case-insensitive keyword
substring match in the URL or the title wins, "Other" is assigned when none
match, and in particular a URL containing "dog" with title "Cat Toy" is
classified Dog since Dog precedes Cat. -/
theorem pet_type_priority :
    (∀ url title, kwMatch dogTerms url title = true → petTypeOf url title = "Dog")
    ∧ (∀ url title, kwMatch dogTerms url title = false →
        kwMatch catTerms url title = true → petTypeOf url title = "Cat")
    ∧ (∀ url title, kwMatch dogTerms url title = false →
        kwMatch catTerms url title = false →
        kwMatch fishTerms url title = true → petTypeOf url title = "Fish")
    ∧ (∀ url title, kwMatch dogTerms url title = false →
        kwMatch catTerms url title = false → kwMatch fishTerms url title = false →
        kwMatch birdTerms url title = true → petTypeOf url title = "Bird")
    ∧ (∀ url title, kwMatch dogTerms url title = false →
        kwMatch catTerms url title = false → kwMatch fishTerms url title = false →
        kwMatch birdTerms url title = false → petTypeOf url title = "Other")
    ∧ petTypeOf "https://shop.example/dog-collars" "Cat Toy" = "Dog" := by
  refine ⟨?_, ?_, ?_, ?_, ?_, by decide⟩
  · intro url title h1
    simp [petTypeOf, petTypeGo, petKeywords, h1]
  · intro url title h1 h2
    simp [petTypeOf, petTypeGo, petKeywords, h1, h2]
  · intro url title h1 h2 h3
    simp [petTypeOf, petTypeGo, petKeywords, h1, h2, h3]
  · intro url title h1 h2 h3 h4
    simp [petTypeOf, petTypeGo, petKeywords, h1, h2, h3, h4]
  · intro url title h1 h2 h3 h4
    simp [petTypeOf, petTypeGo, petKeywords, h1, h2, h3, h4]

/-- Witness for C6: a "k9" URL with no other keyword is classified Dog via
the first conjunct. -/
theorem pet_type_priority_witness :
    kwMatch dogTerms "https://shop.example/K9-harness" "" = true
    ∧ petTypeOf "https://shop.example/K9-harness" "" = "Dog" :=
  ⟨by decide, pet_type_priority.1 "https://shop.example/K9-harness" "" (by decide)⟩

/-- Claim C2 at its inputs: the matching input parses as the claim states —
the price-cleaning regex finds "12.50" in "$12.50 incl. tax" and
`float` yields 12.50 — but on "Call for price" (no match) the code keeps
the RAW extracted text in `product['price']`, which is then stored verbatim
in the REAL `price` column; the stored price is NOT unset/zero as the claim
states (only an empty extraction stays the empty string). -/
theorem price_raw_text_bug :
    normalizePrice "$12.50 incl. tax" = .num (25 / 2)
    ∧ normalizePrice "Call for price" = .raw "Call for price" := by
  refine ⟨?_, by decide⟩
  have h1 : priceSearch "$12.50 incl. tax".data = some ['1', '2', '.', '5', '0'] := by
    decide
  have h2 : (['1', '2', '.', '5', '0'].filter (fun c => !(c == ','))) 
      = ['1', '2', '.', '5', '0'] := by decide
  have h3 : (['1', '2', '.', '5', '0'] : List Char).splitOn '.' = [['1', '2'], ['5', '0']] := by
    decide
  have h4 : digitsToNat ['1', '2'] = 12 := by decide
  have h5 : digitsToNat ['5', '0'] = 50 := by decide
  have h6 : normalizePrice "$12.50 incl. tax"
      = .num (parseDec ['1', '2', '.', '5', '0']) := by
    rw [normalizePrice, if_neg (by decide), h1]
    show PriceField.num (parseDec (['1', '2', '.', '5', '0'].filter (fun c => !(c == ','))))
      = PriceField.num (parseDec ['1', '2', '.', '5', '0'])
    rw [h2]
  rw [h6, parseDec, h3]
  simp only [h4, h5, List.length_cons, List.length_nil]
  norm_num
